import Mathlib

/-!
# Three-state cyclic cellular automaton: a shallow embedding

This file embeds the core of `three_state_unspaghetti.py` — the rule-table
builder `lookup_table`, the standalone evolution function `spacetime_field`,
and the stateful simulator class `ECA` — as executable Lean definitions, and
proves the documented properties of that code.

Modelling conventions:
* Python ints are `Int` (cell values, rule numbers) or `Nat` (loop indices,
  step counters after conversion); Python floats handed to `time_steps` are
  modelled as `ℚ` (the concrete values of interest, such as `2.5`, are exact
  binary rationals, and Python's `int()` on a non-negative float is the floor).
* A Python function that can raise is `Except String _`; the raised
  `ValueError` message strings are kept verbatim.
* The dict built by `dict(zip(neighborhoods, ...))` has pairwise distinct
  keys, so it is modelled as the association list produced by `zip`, with
  `dictGet` performing the key lookup (`KeyError` becomes `none`).
* `ECA.evolve` mutates the object in place and raises before the loop on a
  negative step count; it is modelled in state-passing style as
  `ECA → ℚ → ECA × Option String`, the second component being the raised
  error if any, the first the state of the object after the call.
-/

deriving instance DecidableEq for Except

namespace ThreeStateCA

/-- The canonical neighborhood order used by the source:
`neighborhoods = [(0,0),(0,1),(0,2),(1,0),(1,1),(1,2),(2,0),(2,1),(2,2)]`. -/
def neighborhoods : List (Int × Int) :=
  [(0,0),(0,1),(0,2),(1,0),(1,1),(1,2),(2,0),(2,1),(2,2)]

/-- The `while n: n, r = divmod(n, 3); nums.append(str(r))` loop of
`lookup_table`: least-significant ternary digits of `n`, in order of
extraction.  The recursion is made structural with an explicit iteration
bound (`n` strictly decreases under division by 3), and
`toTernaryRev_eq` below recovers the loop's defining equation. -/
def divmodDigits : Nat → Nat → List Nat
  | _, 0 => []
  | 0, _ + 1 => []
  | n + 1, fuel + 1 => (n + 1) % 3 :: divmodDigits ((n + 1) / 3) fuel

/-- `nums` after the `while` loop of `lookup_table`: ternary digits of `n`,
least-significant first (empty for `n = 0`). -/
def toTernaryRev (n : Nat) : List Nat := divmodDigits n n

/-- The padding step of `lookup_table`:
`if ternary_length != 9: in_ternary = '0'*padding + in_ternary`. -/
def padTernary (l : List Nat) : List Nat :=
  if l.length ≠ 9 then List.replicate (9 - l.length) 0 ++ l else l

/-- `reversed(in_ternary)` as fed to `zip` in `lookup_table`: the padded
ternary string of `n`, least-significant digit first. -/
def tableDigits (n : Nat) : List Nat :=
  (padTernary ((toTernaryRev n).reverse)).reverse

/-- `dict(zip(neighborhoods, map(int, reversed(in_ternary))))` for a
non-negative in-range rule number `n`. -/
def tableOfNat (n : Nat) : List ((Int × Int) × Int) :=
  neighborhoods.zip ((tableDigits n).map (fun d => (d : Int)))

/-- `lookup_table(rule_number)` from the source: validates
`rule_number < 0 or rule_number > 19682` (the `isinstance` check is the
typing of the argument), then builds the neighborhood → output dict. -/
def lookup_table (rule_number : Int) : Except String (List ((Int × Int) × Int)) :=
  if rule_number < 0 ∨ rule_number > 19682 then
    .error "rule_number must be an int between 0 and 19682, inclusive"
  else
    .ok (tableOfNat rule_number.toNat)

/-- Python dict lookup `d[k]` on the association list (keys are pairwise
distinct here, so first match equals the dict entry); `none` is `KeyError`. -/
def dictGet (d : List ((Int × Int) × Int)) (k : Int × Int) : Option Int :=
  match d with
  | [] => none
  | (k', v) :: rest => if k = k' then some v else dictGet rest k

/-- The membership test `i in [0, 1, 2]` used to validate cells. -/
def validCell (i : Int) : Bool := i == 0 || i == 1 || i == 2

/-- The validation loop `for i in initial_condition: if i not in [0,1,2]: raise`:
succeeds exactly when every element passes. -/
def validCells (ic : List Int) : Bool := ic.all validCell

/-- The Python index expression `(i - 1) % length`: `Int.emod` agrees with
Python `%` for a positive modulus, so `-1 % length = length - 1`. -/
def pyIdx (i len : Nat) : Nat := (((i : Int) - 1) % (len : Int)).toNat

/-- One iteration of the inner loop body:
`neighborhood = (cc[(i-1)%length], cc[i]); lookup[neighborhood]`.
`none` models an `IndexError` or `KeyError`. -/
def cellOut (lookup : List ((Int × Int) × Int)) (len : Nat) (cc : List Int)
    (i : Nat) : Option Int := do
  let l ← cc.get? (pyIdx i len)
  let s ← cc.get? i
  dictGet lookup (l, s)

/-- Builds the list of loop-body results, failing at the first failure
(the `new_configuration.append(...)` accumulation). -/
def optMap (f : Nat → Option Int) : List Nat → Option (List Int)
  | [] => some []
  | i :: rest =>
    match f i, optMap f rest with
    | some v, some vs => some (v :: vs)
    | _, _ => none

/-- The inner `for i in range(length)` loop of one evolution step:
the new configuration computed from the current one. -/
def stepConfig (lookup : List ((Int × Int) × Int)) (len : Nat)
    (cc : List Int) : Option (List Int) :=
  optMap (cellOut lookup len cc) (List.range len)

/-- The outer `for t in range(time_steps)` loop of `spacetime_field`,
threading the accumulated field and the current configuration. -/
def evolveLoop (lookup : List ((Int × Int) × Int)) (len : Nat) :
    Nat → List (List Int) → List Int → Except String (List (List Int))
  | 0, field, _ => .ok field
  | t + 1, field, cc =>
    match stepConfig lookup len cc with
    | none => .error "KeyError"
    | some nc => evolveLoop lookup len t (field ++ [nc]) nc

/-- `spacetime_field` after the `time_steps` checks: validates the cells,
builds the lookup table, then runs the evolution loop starting from
`[initial_condition]` with the initial condition current. -/
def spacetime_core (rule_number : Int) (initial_condition : List Int)
    (t : Nat) : Except String (List (List Int)) :=
  if ¬ (validCells initial_condition) then
    .error "initial condition must be a list of 0s, 1s and 2s"
  else
    match lookup_table rule_number with
    | .error e => .error e
    | .ok lookup =>
      evolveLoop lookup initial_condition.length t [initial_condition] initial_condition

/-- `spacetime_field(rule_number, initial_condition, time_steps)` from the
source.  `if time_steps < 0: raise`, then `time_steps = int(time_steps)` —
for the non-negative values that reach it, Python `int()` is the floor
(`try`/`except ValueError` never fires for a numeric argument) — then the
cell validation, table construction and evolution loop. -/
def spacetime_field (rule_number : Int) (initial_condition : List Int)
    (time_steps : ℚ) : Except String (List (List Int)) :=
  if time_steps < 0 then .error "time_steps must be a non-negative integer"
  else spacetime_core rule_number initial_condition (⌊time_steps⌋).toNat

/-- The instance attributes of the `ECA` class (`_length` is `length` here). -/
structure ECA where
  lookup_table : List ((Int × Int) × Int)
  initial : List Int
  spacetime : List (List Int)
  current_configuration : List Int
  length : Nat
deriving DecidableEq, Repr

/-- `ECA.__init__(rule_number, initial_condition)`: validates the cells,
builds the lookup table (either may raise, producing no object), then sets
`spacetime = [initial_condition]`, `current_configuration` to a copy of the
initial condition, and `_length = len(initial_condition)`. -/
def ECA.init (rule_number : Int) (initial_condition : List Int) :
    Except String ECA :=
  if ¬ (validCells initial_condition) then
    .error "initial condition must be a list of 0s, 1s and 2s"
  else
    match ThreeStateCA.lookup_table rule_number with
    | .error e => .error e
    | .ok lt =>
      .ok { lookup_table := lt
            initial := initial_condition
            spacetime := [initial_condition]
            current_configuration := initial_condition
            length := initial_condition.length }

/-- The `for _ in range(time_steps)` loop of `ECA.evolve`: each iteration
replaces `current_configuration` and appends to `spacetime`.  A lookup miss
(`KeyError`, impossible for validly constructed engines, proved below)
stops the loop, returning the state reached together with the error. -/
def ECA.evolveSteps (self : ECA) : Nat → ECA × Option String
  | 0 => (self, none)
  | t + 1 =>
    match stepConfig self.lookup_table self.length self.current_configuration with
    | none => (self, some "KeyError")
    | some nc =>
      ECA.evolveSteps
        { self with
          current_configuration := nc
          spacetime := self.spacetime ++ [nc] } t

/-- `ECA.evolve(time_steps)`: `if time_steps < 0: raise` before any
mutation, then `time_steps = int(time_steps)` (floor, for the non-negative
values that reach it), then the evolution loop. -/
def ECA.evolve (self : ECA) (time_steps : ℚ) : ECA × Option String :=
  if time_steps < 0 then (self, some "time_steps must be a non-negative integer")
  else self.evolveSteps (⌊time_steps⌋).toNat

/-- Base-3 digit of `n` at place `k`, as an `Int` (the table outputs). -/
def dg (n k : Nat) : Int := ((n / 3 ^ k % 3 : Nat) : Int)

/-- A table's totality over valid neighborhoods, with valid outputs: the
property of the built table that makes every evolution-loop lookup succeed. -/
def TableOK (lt : List ((Int × Int) × Int)) : Prop :=
  ∀ a b : Int, validCell a = true → validCell b = true →
    ∃ v, dictGet lt (a, b) = some v ∧ validCell v = true

/-- Reassemble a number from its least-significant-first digit list. -/
def numOfDigits : List Nat → Nat
  | [] => 0
  | d :: rest => d + 3 * numOfDigits rest

/-- The invariant every validly constructed engine maintains: a total table,
valid current cells, and a current configuration of the stored length. -/
def EngineOK (e : ECA) : Prop :=
  TableOK e.lookup_table ∧ validCells e.current_configuration = true ∧
    e.current_configuration.length = e.length

/-- A concrete engine — state of `ECA(22, [0,0,2,0,1,0])` right after
construction — used to instantiate the universally quantified theorems
below at a checkable input. -/
def engine22 : ECA :=
  { lookup_table := tableOfNat 22
    initial := [0,0,2,0,1,0]
    spacetime := [[0,0,2,0,1,0]]
    current_configuration := [0,0,2,0,1,0]
    length := 6 }

/-! ## The ternary digit extraction: basic lemmas -/

/-- Larger fuel does not change `divmodDigits` once it covers the input. -/
lemma divmodDigits_fuel :
    ∀ fuel₁ fuel₂ n, n ≤ fuel₁ → n ≤ fuel₂ →
      divmodDigits n fuel₁ = divmodDigits n fuel₂ := by
  intro fuel₁
  induction fuel₁ with
  | zero =>
    intro fuel₂ n h₁ _
    interval_cases n
    cases fuel₂ <;> rfl
  | succ f ih =>
    intro fuel₂ n h₁ h₂
    cases fuel₂ with
    | zero =>
      interval_cases n
      rfl
    | succ g =>
      cases n with
      | zero => rfl
      | succ m =>
        show (m + 1) % 3 :: divmodDigits ((m + 1) / 3) f
            = (m + 1) % 3 :: divmodDigits ((m + 1) / 3) g
        have hd : (m + 1) / 3 ≤ m := by
          have := Nat.div_lt_self (Nat.succ_pos m) (by norm_num : 1 < 3)
          omega
        rw [ih g ((m + 1) / 3) (by omega) (by omega)]

/-- The defining equation of the Python `while` loop. -/
lemma toTernaryRev_eq (n : Nat) :
    toTernaryRev n = if n = 0 then [] else n % 3 :: toTernaryRev (n / 3) := by
  cases n with
  | zero => rfl
  | succ m =>
    show divmodDigits (m + 1) (m + 1) = (m + 1) % 3 :: divmodDigits ((m + 1) / 3) ((m + 1) / 3)
    show (m + 1) % 3 :: divmodDigits ((m + 1) / 3) m
        = (m + 1) % 3 :: divmodDigits ((m + 1) / 3) ((m + 1) / 3)
    have hd : (m + 1) / 3 ≤ m := by
      have := Nat.div_lt_self (Nat.succ_pos m) (by norm_num : 1 < 3)
      omega
    rw [divmodDigits_fuel m ((m + 1) / 3) ((m + 1) / 3) hd (le_refl _)]

/-- Padding the extracted digits to width `d` yields exactly the list of the
`d` least-significant base-3 digits of `n`, in increasing place-value order. -/
lemma toTernaryRev_spec :
    ∀ (d n : Nat), n < 3 ^ d →
      toTernaryRev n ++ List.replicate (d - (toTernaryRev n).length) 0 =
        (List.range d).map (fun k => n / 3 ^ k % 3) := by
  intro d
  induction d with
  | zero =>
    intro n hn
    interval_cases n
    simp [toTernaryRev_eq]
  | succ d ih =>
    intro n hn
    by_cases h0 : n = 0
    · subst h0
      rw [toTernaryRev_eq]
      simp [List.map_const']
    · rw [toTernaryRev_eq, if_neg h0]
      have hrec : n / 3 < 3 ^ d := by
        apply Nat.div_lt_of_lt_mul
        calc n < 3 ^ (d + 1) := hn
        _ = 3 * 3 ^ d := by ring
      have := ih (n / 3) hrec
      rw [List.range_succ_eq_map, List.map_cons, List.map_map]
      have hcomp :
          ((fun k => n / 3 ^ k % 3) ∘ Nat.succ) = fun k => n / 3 / 3 ^ k % 3 := by
        funext k
        simp only [Function.comp_apply]
        rw [Nat.div_div_eq_div_mul, ← Nat.pow_succ']
      rw [hcomp, ← this]
      simp [Nat.succ_sub_one]

/-- The extracted digit list of `n < 3 ^ d` has at most `d` digits. -/
lemma toTernaryRev_length_le (d n : Nat) (hn : n < 3 ^ d) :
    (toTernaryRev n).length ≤ d := by
  have h := congrArg List.length (toTernaryRev_spec d n hn)
  simp only [List.length_append, List.length_replicate, List.length_map,
    List.length_range] at h
  omega

/-- `padTernary` written without the `if`: when the input already has 9
digits the prepended block is empty. -/
lemma padTernary_eq (l : List Nat) :
    padTernary l = List.replicate (9 - l.length) 0 ++ l := by
  unfold padTernary
  by_cases h : l.length = 9 <;> simp [h]

/-- Closed form of the digit string fed to `zip`: digit `k` (in canonical
neighborhood order) is the base-3 digit of `n` at place value `3 ^ k`. -/
lemma tableDigits_eq (n : Nat) (h : n < 19683) :
    tableDigits n = (List.range 9).map (fun k => n / 3 ^ k % 3) := by
  have h3 : n < 3 ^ 9 := by norm_num; omega
  unfold tableDigits
  rw [padTernary_eq, List.reverse_append, List.reverse_replicate, List.reverse_reverse,
    List.length_reverse]
  exact toTernaryRev_spec 9 n h3

/-! ## The rule table: explicit form, totality, bijectivity -/

/-- The table of a valid rule number, written out entry by entry. -/
lemma tableOfNat_explicit (n : Nat) (h : n < 19683) :
    tableOfNat n =
      [((0,0), dg n 0), ((0,1), dg n 1), ((0,2), dg n 2),
       ((1,0), dg n 3), ((1,1), dg n 4), ((1,2), dg n 5),
       ((2,0), dg n 6), ((2,1), dg n 7), ((2,2), dg n 8)] := by
  unfold tableOfNat neighborhoods
  rw [tableDigits_eq n h]
  have hr : List.range 9 = [0,1,2,3,4,5,6,7,8] := rfl
  rw [hr]
  simp [dg, List.zip]

/-- Every digit is one of the three cell values. -/
lemma dg_valid (n k : Nat) : validCell (dg n k) = true := by
  have h3 : n / 3 ^ k % 3 < 3 := Nat.mod_lt _ (by norm_num)
  unfold validCell dg
  interval_cases h : (n / 3 ^ k % 3) <;> simp

/-- `validCell` unfolded to the three possible values. -/
lemma validCell_cases (a : Int) (h : validCell a = true) :
    a = 0 ∨ a = 1 ∨ a = 2 := by
  simp [validCell] at h
  tauto

/-- Looking up a valid neighborhood `(a, b)` in the table of a valid rule
number finds the base-3 digit of the rule number at place `3 * a + b`. -/
lemma dictGet_tableOfNat (n : Nat) (h : n < 19683) (a b : Int)
    (ha : validCell a = true) (hb : validCell b = true) :
    dictGet (tableOfNat n) (a, b) = some (dg n (3 * a.toNat + b.toNat)) := by
  rw [tableOfNat_explicit n h]
  rcases validCell_cases a ha with rfl | rfl | rfl <;>
    rcases validCell_cases b hb with rfl | rfl | rfl <;>
      simp [dictGet, Prod.ext_iff]

lemma tableOfNat_ok (n : Nat) (h : n < 19683) : TableOK (tableOfNat n) := by
  intro a b ha hb
  exact ⟨dg n (3 * a.toNat + b.toNat), dictGet_tableOfNat n h a b ha hb, dg_valid n _⟩

/-- `lookup_table` on a valid rule number succeeds with the built table. -/
lemma lookup_table_ok (r : Int) (h0 : 0 ≤ r) (h1 : r ≤ 19682) :
    lookup_table r = .ok (tableOfNat r.toNat) := by
  unfold lookup_table
  rw [if_neg (by omega)]

/-- The first 9 base-3 digits determine a number below `3 ^ 9`. -/
lemma digits_inj :
    ∀ (d n m : Nat), n < 3 ^ d → m < 3 ^ d →
      (∀ k < d, n / 3 ^ k % 3 = m / 3 ^ k % 3) → n = m := by
  intro d
  induction d with
  | zero => intro n m hn hm _; simp at hn hm; omega
  | succ d ih =>
    intro n m hn hm hk
    have h0 := hk 0 (by omega)
    simp at h0
    have hdig : ∀ k < d, n / 3 / 3 ^ k % 3 = m / 3 / 3 ^ k % 3 := by
      intro k hkd
      have := hk (k + 1) (by omega)
      simp only [Nat.pow_succ', ← Nat.div_div_eq_div_mul] at this
      exact this
    have hpow : (3:ℕ) ^ (d + 1) = 3 * 3 ^ d := by ring
    have hq : n / 3 = m / 3 :=
      ih (n / 3) (m / 3)
        (Nat.div_lt_of_lt_mul (hpow ▸ hn)) (Nat.div_lt_of_lt_mul (hpow ▸ hm)) hdig
    omega

lemma numOfDigits_lt :
    ∀ ds : List Nat, (∀ x ∈ ds, x < 3) → numOfDigits ds < 3 ^ ds.length := by
  intro ds
  induction ds with
  | nil => intro _; simp [numOfDigits]
  | cons d rest ih =>
    intro h
    have hd : d < 3 := h d (by simp)
    have hr := ih (fun x hx => h x (by simp [hx]))
    have hpow : (3:ℕ) ^ (rest.length + 1) = 3 * 3 ^ rest.length := by ring
    simp only [numOfDigits, List.length_cons, hpow]
    omega

/-- Extracting digits undoes `numOfDigits` for lists of base-3 digits. -/
lemma digits_numOfDigits :
    ∀ ds : List Nat, (∀ x ∈ ds, x < 3) →
      (List.range ds.length).map (fun k => numOfDigits ds / 3 ^ k % 3) = ds := by
  intro ds
  induction ds with
  | nil => intro _; simp
  | cons d rest ih =>
    intro h
    have hd : d < 3 := h d (by simp)
    have hr := ih (fun x hx => h x (by simp [hx]))
    have hR : numOfDigits (d :: rest) / 3 = numOfDigits rest := by
      show (d + 3 * numOfDigits rest) / 3 = numOfDigits rest
      omega
    have hhead : numOfDigits (d :: rest) % 3 = d := by
      show (d + 3 * numOfDigits rest) % 3 = d
      omega
    simp only [List.length_cons, List.range_succ_eq_map, List.map_cons, List.map_map]
    congr 1
    · simpa using hhead
    · have hcomp : ((fun k => numOfDigits (d :: rest) / 3 ^ k % 3) ∘ Nat.succ)
          = fun k => numOfDigits rest / 3 ^ k % 3 := by
        funext k
        simp only [Function.comp_apply, Nat.pow_succ', ← Nat.div_div_eq_div_mul, hR]
      rw [hcomp, hr]

/-! ## The evolution step -/

/-- The wraparound index stays inside the lattice. -/
lemma pyIdx_lt (i len : Nat) (hlen : 0 < len) : pyIdx i len < len := by
  unfold pyIdx
  have hne : ((len : Int)) ≠ 0 := by omega
  have h1 : 0 ≤ ((i : Int) - 1) % (len : Int) := Int.emod_nonneg _ hne
  have h2 : ((i : Int) - 1) % (len : Int) < (len : Int) :=
    Int.emod_lt_of_pos _ (by omega)
  omega

/-- Cyclic boundary: position 0's left neighbor index is the last index. -/
lemma pyIdx_zero (len : Nat) (hlen : 0 < len) : pyIdx 0 len = len - 1 := by
  unfold pyIdx
  have h : (((0 : Nat) : Int) - 1) % (len : Int) = (len : Int) - 1 := by
    have h1 : (((0 : Nat) : Int) - 1) % (len : Int)
        = ((((0 : Nat) : Int) - 1) + (len : Int) * 1) % (len : Int) :=
      (Int.add_mul_emod_self_left _ _ _).symm
    have h2 : (((0 : Nat) : Int) - 1) + (len : Int) * 1 = (len : Int) - 1 := by ring
    rw [h1, h2]
    exact Int.emod_eq_of_lt (by omega) (by omega)
  rw [h]
  omega

/-- `optMap` succeeds, with pointwise-described output, when every loop-body
call succeeds with an output satisfying `P`. -/
lemma optMap_spec {f : Nat → Option Int} {P : Int → Prop} :
    ∀ {is : List Nat}, (∀ i ∈ is, ∃ v, f i = some v ∧ P v) →
      ∃ vs, optMap f is = some vs ∧ vs.length = is.length ∧
        (∀ v ∈ vs, P v) ∧
        (∀ j iv, is.get? j = some iv → vs.get? j = f iv) := by
  intro is
  induction is with
  | nil => intro _; exact ⟨[], rfl, rfl, by simp, by simp⟩
  | cons i rest ih =>
    intro h
    obtain ⟨v, hv, hPv⟩ := h i (by simp)
    obtain ⟨vs, hvs, hlen, hP, hget⟩ := ih (fun j hj => h j (by simp [hj]))
    refine ⟨v :: vs, ?_, by simp [hlen], ?_, ?_⟩
    · show optMap f (i :: rest) = some (v :: vs)
      unfold optMap
      rw [hv, hvs]
    · intro w hw
      rcases List.mem_cons.mp hw with rfl | hw'
      · exact hPv
      · exact hP w hw'
    · intro j iv hj
      cases j with
      | zero =>
        simp at hj
        subst hj
        simpa using hv.symm
      | succ j' =>
        simp only [List.get?] at hj ⊢
        exact hget j' iv hj

/-- One evolution step on a valid configuration: it succeeds, preserves the
length, keeps every cell valid, and computes position `i` by the
neighborhood lookup `(cc[(i-1) % len], cc[i])`. -/
lemma stepConfig_spec (lt : List ((Int × Int) × Int)) (hlt : TableOK lt)
    (cc : List Int) (hcc : validCells cc = true) :
    ∃ nc, stepConfig lt cc.length cc = some nc ∧ nc.length = cc.length ∧
      validCells nc = true ∧
      ∀ i, i < cc.length → nc.get? i = cellOut lt cc.length cc i := by
  have hmem : ∀ x ∈ cc, validCell x = true := by
    intro x hx
    exact List.all_eq_true.mp hcc x hx
  have hbody : ∀ i ∈ List.range cc.length,
      ∃ v, cellOut lt cc.length cc i = some v ∧ validCell v = true := by
    intro i hi
    have hi' : i < cc.length := List.mem_range.mp hi
    have hpos : 0 < cc.length := by omega
    have hL : pyIdx i cc.length < cc.length := pyIdx_lt i cc.length hpos
    have hl : cc.get? (pyIdx i cc.length) = some (cc.get ⟨_, hL⟩) :=
      List.get?_eq_get hL
    have hs : cc.get? i = some (cc.get ⟨i, hi'⟩) := List.get?_eq_get hi'
    obtain ⟨v, hv, hPv⟩ := hlt (cc.get ⟨_, hL⟩) (cc.get ⟨i, hi'⟩)
      (hmem _ (List.get_mem cc _ _)) (hmem _ (List.get_mem cc _ _))
    refine ⟨v, ?_, hPv⟩
    unfold cellOut
    rw [hl, hs]
    simpa using hv
  obtain ⟨vs, hvs, hlen, hP, hget⟩ := optMap_spec (P := fun v => validCell v = true) hbody
  refine ⟨vs, hvs, by simpa using hlen, List.all_eq_true.mpr hP, ?_⟩
  intro i hi
  exact hget i i (List.get?_range hi)

/-! ## The engine: invariants, success, composition -/

/-- Construction on valid inputs: the exact engine produced, and its invariant. -/
lemma init_ok (r : Int) (ic : List Int) (h0 : 0 ≤ r) (h1 : r ≤ 19682)
    (hic : validCells ic = true) :
    ECA.init r ic =
      .ok { lookup_table := tableOfNat r.toNat, initial := ic, spacetime := [ic],
            current_configuration := ic, length := ic.length } ∧
      EngineOK { lookup_table := tableOfNat r.toNat, initial := ic, spacetime := [ic],
                 current_configuration := ic, length := ic.length } := by
  constructor
  · unfold ECA.init
    rw [if_neg (by simp [hic]), lookup_table_ok r h0 h1]
  · exact ⟨tableOfNat_ok r.toNat (by omega), hic, rfl⟩

/-- Evolving `t` steps from a state satisfying the invariant: no error, the
invariant is preserved, the table, length and initial condition are
untouched, the history grows by exactly `t` appended rows, every row is
either an old row or a valid row of the lattice length, and the final
current configuration is the last history row. -/
lemma evolveSteps_spec :
    ∀ (t : Nat) (e : ECA), EngineOK e →
      ∃ e', e.evolveSteps t = (e', none) ∧ EngineOK e' ∧
        e'.lookup_table = e.lookup_table ∧ e'.length = e.length ∧
        e'.initial = e.initial ∧
        e'.spacetime.length = e.spacetime.length + t ∧
        (∃ rows, e'.spacetime = e.spacetime ++ rows) ∧
        (∀ row ∈ e'.spacetime, row ∈ e.spacetime ∨
          (validCells row = true ∧ row.length = e.length)) := by
  intro t
  induction t with
  | zero =>
    intro e he
    exact ⟨e, rfl, he, rfl, rfl, rfl, rfl, ⟨[], by simp⟩, fun row hr => Or.inl hr⟩
  | succ t ih =>
    intro e he
    obtain ⟨hlt, hcc, hlen⟩ := he
    obtain ⟨nc, hnc, hnclen, hncval, _⟩ := stepConfig_spec e.lookup_table hlt
      e.current_configuration hcc
    have hstep : stepConfig e.lookup_table e.length e.current_configuration = some nc := by
      rw [← hlen]
      exact hnc
    set e₁ : ECA :=
      { e with current_configuration := nc, spacetime := e.spacetime ++ [nc] } with he₁
    have he₁ok : EngineOK e₁ := ⟨hlt, hncval, by rw [he₁]; simp [hnclen, hlen]⟩
    obtain ⟨e', h1, h2, h3, h4, h5, h6, ⟨rows, h7⟩, h8⟩ := ih e₁ he₁ok
    refine ⟨e', ?_, h2, h3, h4, h5, ?_, ⟨[nc] ++ rows, ?_⟩, ?_⟩
    · show ECA.evolveSteps e (t + 1) = (e', none)
      unfold ECA.evolveSteps
      rw [hstep]
      exact h1
    · rw [h6, he₁]
      simp only [List.length_append, List.length_singleton]
      omega
    · rw [h7, he₁]
      simp
    · intro row hr
      rcases h8 row hr with hold | hnew
      · rw [he₁] at hold
        simp only [List.mem_append, List.mem_singleton] at hold
        rcases hold with h | h
        · exact Or.inl h
        · subst h
          exact Or.inr ⟨hncval, by rw [hnclen, hlen]⟩
      · exact Or.inr hnew

/-- Each step reads only the immediately preceding configuration, so
evolution composes: `n + m` steps are `n` steps followed by `m` steps. -/
lemma evolveSteps_add (n m : Nat) :
    ∀ (e : ECA), EngineOK e →
      e.evolveSteps (n + m) = ((e.evolveSteps n).1).evolveSteps m := by
  induction n with
  | zero =>
    intro e _
    show e.evolveSteps (0 + m) = ((e.evolveSteps 0).1).evolveSteps m
    rw [Nat.zero_add]
    rfl
  | succ n ih =>
    intro e he
    obtain ⟨hlt, hcc, hlen⟩ := he
    obtain ⟨nc, hnc, hnclen, hncval, _⟩ := stepConfig_spec e.lookup_table hlt
      e.current_configuration hcc
    have hstep : stepConfig e.lookup_table e.length e.current_configuration = some nc := by
      rw [← hlen]
      exact hnc
    set e₁ : ECA :=
      { e with current_configuration := nc, spacetime := e.spacetime ++ [nc] } with he₁
    have he₁ok : EngineOK e₁ := ⟨hlt, hncval, by rw [he₁]; simp [hnclen, hlen]⟩
    have hL : e.evolveSteps (n + 1 + m) = e₁.evolveSteps (n + m) := by
      have harr : n + 1 + m = (n + m) + 1 := by omega
      rw [harr]
      conv_lhs => unfold ECA.evolveSteps
      simp only [hstep]
    have hR : e.evolveSteps (n + 1) = e₁.evolveSteps n := by
      conv_lhs => unfold ECA.evolveSteps
      simp only [hstep]
    rw [hL, hR]
    exact ih e₁ he₁ok

/-- The `spacetime_field` loop and the `ECA.evolve` loop are the same
computation: a successful engine run determines the loop's output. -/
lemma evolveSteps_loop :
    ∀ (t : Nat) (e e' : ECA), e.evolveSteps t = (e', none) →
      evolveLoop e.lookup_table e.length t e.spacetime e.current_configuration =
        .ok e'.spacetime := by
  intro t
  induction t with
  | zero =>
    intro e e' h
    have : e = e' := congrArg Prod.fst h
    rw [← this]
    rfl
  | succ t ih =>
    intro e e' h
    unfold ECA.evolveSteps at h
    unfold evolveLoop
    cases hstep : stepConfig e.lookup_table e.length e.current_configuration with
    | none =>
      rw [hstep] at h
      exact absurd (congrArg Prod.snd h) (by simp)
    | some nc =>
      rw [hstep] at h
      have := ih _ e' h
      simpa using this

/-! ## Bridging the `time_steps` argument -/

/-- `evolve` on a natural step count runs exactly that many loop iterations. -/
lemma evolve_natCast (e : ECA) (t : Nat) :
    e.evolve ((t : ℚ)) = e.evolveSteps t := by
  unfold ECA.evolve
  rw [if_neg (not_lt.mpr (by positivity)), Int.floor_natCast, Int.toNat_natCast]

/-- `evolve` on any non-negative step count runs `⌊steps⌋` loop iterations. -/
lemma evolve_nonneg (e : ECA) (q : ℚ) (hq : 0 ≤ q) :
    e.evolve q = e.evolveSteps (⌊q⌋).toNat := by
  unfold ECA.evolve
  rw [if_neg (not_lt.mpr hq)]

/-- `evolve` on a negative step count raises before the loop: the state
returned is the unchanged input state. -/
lemma evolve_neg (e : ECA) (q : ℚ) (hq : q < 0) :
    e.evolve q = (e, some "time_steps must be a non-negative integer") := by
  unfold ECA.evolve
  rw [if_pos hq]

/-- `spacetime_field` on a natural step count is its validation-plus-loop core. -/
lemma spacetime_field_natCast (r : Int) (ic : List Int) (t : Nat) :
    spacetime_field r ic ((t : ℚ)) = spacetime_core r ic t := by
  unfold spacetime_field
  rw [if_neg (not_lt.mpr (by positivity)), Int.floor_natCast, Int.toNat_natCast]

/-! ## Remaining helper lemmas -/

/-- Distinct valid rule numbers build distinct tables. -/
lemma tableOfNat_inj (n m : Nat) (hn : n ≤ 19682) (hm : m ≤ 19682)
    (h : tableOfNat n = tableOfNat m) : n = m := by
  rw [tableOfNat_explicit n (by omega), tableOfNat_explicit m (by omega)] at h
  simp only [dg, List.cons.injEq, Prod.mk.injEq, Int.natCast_inj, and_true, true_and] at h
  obtain ⟨h0, h1, h2, h3, h4, h5, h6, h7, h8⟩ := h
  have h39 : (19683 : ℕ) = 3 ^ 9 := by norm_num
  apply digits_inj 9 n m (by omega) (by omega)
  intro k hk
  interval_cases k
  · exact h0
  · exact h1
  · exact h2
  · exact h3
  · exact h4
  · exact h5
  · exact h6
  · exact h7
  · exact h8

/-- Every base-3 digit string of length 9 is the table of a valid rule number. -/
lemma tableOfNat_surj (ds : List Nat) (hlen : ds.length = 9)
    (hds : ∀ x ∈ ds, x < 3) :
    ∃ n : Nat, n ≤ 19682 ∧
      tableOfNat n = neighborhoods.zip (ds.map (fun d => (d : Int))) := by
  have hbound : numOfDigits ds < 19683 := by
    have := numOfDigits_lt ds hds
    rw [hlen] at this
    norm_num at this
    exact this
  refine ⟨numOfDigits ds, by omega, ?_⟩
  unfold tableOfNat
  congr 1
  have h1 : tableDigits (numOfDigits ds) = ds := by
    rw [tableDigits_eq _ hbound, ← hlen]
    exact digits_numOfDigits ds hds
  rw [h1]

/-- Evolving the empty lattice: each step appends another empty row. -/
lemma evolveLoop_nil (lt : List ((Int × Int) × Int)) :
    ∀ (t : Nat) (field : List (List Int)),
      evolveLoop lt 0 t field [] = .ok (field ++ List.replicate t []) := by
  intro t
  induction t with
  | zero => intro field; simp [evolveLoop]
  | succ t ih =>
    intro field
    have hstep : stepConfig lt 0 ([] : List Int) = some [] := rfl
    unfold evolveLoop
    rw [hstep]
    show evolveLoop lt 0 t (field ++ [[]]) [] = _
    rw [ih (field ++ [[]])]
    simp [List.replicate_succ]

/-- `spacetime_core` on valid inputs reduces to the evolution loop on the
freshly built table. -/
lemma spacetime_core_ok (r : Int) (ic : List Int) (h0 : 0 ≤ r)
    (h1 : r ≤ 19682) (hic : validCells ic = true) (t : Nat) :
    spacetime_core r ic t =
      evolveLoop (tableOfNat r.toNat) ic.length t [ic] ic := by
  unfold spacetime_core
  rw [if_neg (by simp [hic]), lookup_table_ok r h0 h1]

/-! ## The claims -/

/-- C1: Evolving rule number 22 from the initial condition `[0,0,2,0,1,0]`
for 2 steps produces a spacetime history whose generation 1 is
`[1,1,2,0,1,0]` and whose generation 2 is `[1,0,0,0,1,0]` (generation 0
being the unchanged initial condition). -/
theorem evolution_trace_rule22 :
    spacetime_field 22 [0,0,2,0,1,0] 2 =
      .ok [[0,0,2,0,1,0], [1,1,2,0,1,0], [1,0,0,0,1,0]] := by
  have h : ((2 : ℚ)) = (((2 : Nat)) : ℚ) := by norm_num
  rw [h, spacetime_field_natCast]
  decide

/-- C2: the rule table of rule number 255 assigns, in the canonical
neighborhood order, the outputs `[0,1,1,0,0,1,0,0,0]`; rule 9841 assigns
output 1 to all nine neighborhoods; rule 19682 assigns output 2 to all
nine neighborhoods. -/
theorem rule_table_known_outputs :
    lookup_table 255 =
      .ok [((0,0),0),((0,1),1),((0,2),1),((1,0),0),((1,1),0),((1,2),1),
           ((2,0),0),((2,1),0),((2,2),0)] ∧
    lookup_table 9841 = .ok (neighborhoods.zip (List.replicate 9 1)) ∧
    lookup_table 19682 = .ok (neighborhoods.zip (List.replicate 9 2)) :=
  ⟨by decide, by decide, by decide⟩

/-- C3: one evolution step on a non-empty valid configuration computes
position `i` of the new configuration as the rule-table output for the
neighborhood `(previous[(i-1) mod L], previous[i])`; in particular the
index `(i-1) mod L` at `i = 0` is `L - 1` (cyclic boundary).  The new value
is a function of the previous full configuration only: `stepConfig` takes
nothing but the table and the previous configuration as inputs, so no
partially updated current-step value can be consulted. -/
theorem step_uses_cyclic_neighborhood (n : Nat) (hn : n ≤ 19682)
    (cc : List Int) (hcc : validCells cc = true) (hne : cc ≠ [])
    (i : Nat) (hi : i < cc.length) :
    ∃ nc l s v,
      stepConfig (tableOfNat n) cc.length cc = some nc ∧
      cc.get? (pyIdx i cc.length) = some l ∧
      cc.get? i = some s ∧
      dictGet (tableOfNat n) (l, s) = some v ∧
      nc.get? i = some v ∧
      pyIdx 0 cc.length = cc.length - 1 := by
  have hpos : 0 < cc.length := List.length_pos.mpr hne
  have hn' : n < 19683 := by omega
  obtain ⟨nc, hnc, _, _, hget⟩ :=
    stepConfig_spec (tableOfNat n) (tableOfNat_ok n hn') cc hcc
  have hL := pyIdx_lt i cc.length hpos
  have hl : cc.get? (pyIdx i cc.length) = some (cc.get ⟨_, hL⟩) :=
    List.get?_eq_get hL
  have hs : cc.get? i = some (cc.get ⟨i, hi⟩) := List.get?_eq_get hi
  have hmem : ∀ x ∈ cc, validCell x = true :=
    fun x hx => List.all_eq_true.mp hcc x hx
  obtain ⟨v, hv, _⟩ := tableOfNat_ok n hn' (cc.get ⟨_, hL⟩) (cc.get ⟨i, hi⟩)
    (hmem _ (List.get_mem cc _ _)) (hmem _ (List.get_mem cc _ _))
  refine ⟨nc, _, _, v, hnc, hl, hs, hv, ?_, pyIdx_zero cc.length hpos⟩
  rw [hget i hi]
  unfold cellOut
  rw [hl, hs]
  simpa using hv

/-- Witness for C3 at rule 22, configuration `[0,0,2,0,1,0]`, position 0. -/
theorem step_uses_cyclic_neighborhood_witness :
    ∃ nc l s v,
      stepConfig (tableOfNat 22) ([0,0,2,0,1,0] : List Int).length
          [0,0,2,0,1,0] = some nc ∧
      ([0,0,2,0,1,0] : List Int).get?
          (pyIdx 0 ([0,0,2,0,1,0] : List Int).length) = some l ∧
      ([0,0,2,0,1,0] : List Int).get? 0 = some s ∧
      dictGet (tableOfNat 22) (l, s) = some v ∧
      nc.get? 0 = some v ∧
      pyIdx 0 ([0,0,2,0,1,0] : List Int).length =
        ([0,0,2,0,1,0] : List Int).length - 1 :=
  step_uses_cyclic_neighborhood 22 (by decide) [0,0,2,0,1,0]
    (by decide) (by decide) 0 (by decide)

/-- C4, counterexample: constructing an engine — or a spacetime field —
from the empty initial condition does NOT fail: `ECA.__init__` succeeds
(spacetime `[[]]`), and `spacetime_field` with 1 step returns `[[], []]`.
No `EmptyLattice` rejection exists in the code. -/
theorem empty_lattice_accepted_counterexample :
    (ECA.init 0 []).map ECA.spacetime = .ok [[]] ∧
    spacetime_field 0 [] 1 = .ok [[], []] := by
  constructor
  · decide
  · have h : ((1 : ℚ)) = (((1 : Nat)) : ℚ) := by norm_num
    rw [h, spacetime_field_natCast]
    decide

/-- C4, amended: for every valid rule number, a zero-length initial
condition is silently accepted — the engine is constructed with spacetime
history `[[]]`, and evolving any number of steps succeeds, each step
appending another empty configuration. -/
theorem empty_lattice_accepted (r : Int) (h0 : 0 ≤ r) (h1 : r ≤ 19682)
    (t : Nat) :
    ∃ e, ECA.init r [] = .ok e ∧ e.spacetime = [[]] ∧
      spacetime_field r [] ((t : ℚ)) = .ok (List.replicate (t + 1) []) := by
  obtain ⟨hinit, _⟩ := init_ok r [] h0 h1 (by decide)
  refine ⟨_, hinit, rfl, ?_⟩
  rw [spacetime_field_natCast, spacetime_core_ok r [] h0 h1 (by decide) t]
  show evolveLoop (tableOfNat r.toNat) 0 t [[]] [] = _
  rw [evolveLoop_nil (tableOfNat r.toNat) t [[]]]
  simp [List.replicate_succ]

/-- Witness for the amended C4 at rule number 0, one step. -/
theorem empty_lattice_accepted_witness :
    ∃ e, ECA.init 0 [] = .ok e ∧ e.spacetime = [[]] ∧
      spacetime_field 0 [] (((1 : Nat)) : ℚ) =
        .ok (List.replicate (1 + 1) []) :=
  empty_lattice_accepted 0 (by decide) (by decide) 1

/-- C5, counterexample: the non-integral step count `5/2` (Python `2.5`)
is NOT rejected by `evolve`: the call completes, performing
`int(2.5) = 2` evolution steps on the engine of rule 22 and initial
condition `[0,0,2,0,1,0]`, so a non-integral step value does result in a
completed evolution. -/
theorem nonintegral_steps_accepted_counterexample :
    (ECA.init 22 [0,0,2,0,1,0]).map (fun e => e.evolve (5/2)) =
      .ok ({ lookup_table := tableOfNat 22
             initial := [0,0,2,0,1,0]
             spacetime := [[0,0,2,0,1,0], [1,1,2,0,1,0], [1,0,0,0,1,0]]
             current_configuration := [1,0,0,0,1,0]
             length := 6 }, none) := by
  have h : ECA.init 22 [0,0,2,0,1,0] = .ok engine22 := by decide
  have h1 : (⌊(5/2 : ℚ)⌋) = 2 := by
    rw [Int.floor_eq_iff]
    norm_num
  rw [h]
  simp only [Except.map]
  simp only [ECA.evolve]
  rw [if_neg (by norm_num), h1]
  decide

/-- C5, amended: a non-integral step count that is ≥ 0 is not rejected —
`int()` truncates it to its floor and the evolution completes, behaving
exactly like the integral call `evolve(⌊steps⌋)`; only values below 0 are
rejected at the `time_steps < 0` check. -/
theorem nonintegral_steps_truncated (r : Int) (ic : List Int)
    (h0 : 0 ≤ r) (h1 : r ≤ 19682) (hic : validCells ic = true)
    (q : ℚ) (hq : 0 ≤ q) :
    ∃ e, ECA.init r ic = .ok e ∧
      e.evolve q = e.evolve ((⌊q⌋ : ℤ) : ℚ) ∧
      (e.evolve q).2 = none := by
  obtain ⟨hinit, hok⟩ := init_ok r ic h0 h1 hic
  have hfl : (0 : ℚ) ≤ ((⌊q⌋ : ℤ) : ℚ) := by
    have : (0 : ℤ) ≤ ⌊q⌋ := Int.floor_nonneg.mpr hq
    exact_mod_cast this
  refine ⟨_, hinit, ?_, ?_⟩
  · rw [evolve_nonneg _ q hq, evolve_nonneg _ _ hfl, Int.floor_intCast]
  · rw [evolve_nonneg _ q hq]
    obtain ⟨e', he', _⟩ := evolveSteps_spec (⌊q⌋).toNat _ hok
    rw [he']

/-- Witness for the amended C5 at rule 22, `[0,0,2,0,1,0]`, steps `5/2`. -/
theorem nonintegral_steps_truncated_witness :
    ∃ e, ECA.init 22 [0,0,2,0,1,0] = .ok e ∧
      e.evolve (5/2) = e.evolve ((⌊(5/2 : ℚ)⌋ : ℤ) : ℚ) ∧
      (e.evolve (5/2)).2 = none :=
  nonintegral_steps_truncated 22 [0,0,2,0,1,0] (by decide) (by decide)
    (by decide) (5/2) (by norm_num)

/-- C6: `evolve(0)` leaves any engine state unchanged (raising no error),
and for every validly constructed engine and all non-negative integers
`n, m`, calling `evolve(n)` then `evolve(m)` yields exactly the same
result — final current configuration, spacetime history and all — as the
single call `evolve(n+m)`, the history then holding exactly `1 + n + m`
generations. -/
theorem evolve_zero_noop_and_additive :
    (∀ e : ECA, e.evolve 0 = (e, none)) ∧
    (∀ (r : Int) (ic : List Int), 0 ≤ r → r ≤ 19682 →
      validCells ic = true →
      ∀ (n m : Nat) (e : ECA), ECA.init r ic = .ok e →
        (e.evolve ((n : ℚ))).1.evolve ((m : ℚ)) =
          e.evolve (((n + m : Nat)) : ℚ) ∧
        (e.evolve (((n + m : Nat)) : ℚ)).2 = none ∧
        ((e.evolve ((n : ℚ))).1.evolve ((m : ℚ))).1.spacetime.length =
          1 + n + m) := by
  constructor
  · intro e
    have h : ((0 : ℚ)) = (((0 : Nat)) : ℚ) := by norm_num
    rw [h, evolve_natCast]
    rfl
  · intro r ic h0 h1 hic n m e hinit
    obtain ⟨hinit', hok⟩ := init_ok r ic h0 h1 hic
    rw [hinit] at hinit'
    injection hinit' with he
    subst he
    have hadd := evolveSteps_add n m _ hok
    rw [evolve_natCast, evolve_natCast, evolve_natCast, ← hadd]
    obtain ⟨e', he', _, _, _, _, hlen, _, _⟩ := evolveSteps_spec (n + m) _ hok
    refine ⟨rfl, ?_, ?_⟩
    · rw [he']
    · rw [he']
      show e'.spacetime.length = 1 + n + m
      simp at hlen
      omega

/-- Witness for C6 at the engine of rule 22 and `[0,0,2,0,1,0]`, with
`n = m = 1`. -/
theorem evolve_zero_noop_and_additive_witness :
    (engine22.evolve (((1 : Nat)) : ℚ)).1.evolve (((1 : Nat)) : ℚ) =
      engine22.evolve (((1 + 1 : Nat)) : ℚ) ∧
    (engine22.evolve (((1 + 1 : Nat)) : ℚ)).2 = none ∧
    ((engine22.evolve (((1 : Nat)) : ℚ)).1.evolve
        (((1 : Nat)) : ℚ)).1.spacetime.length = 1 + 1 + 1 :=
  evolve_zero_noop_and_additive.2 22 [0,0,2,0,1,0] (by decide) (by decide)
    (by decide) 1 1 engine22 (by decide)

/-- C7: a negative step count makes `evolve` fail with the
"time_steps must be a non-negative integer" error before the loop runs:
the state handed back is the unchanged input state.  Conversely, on a
validly constructed engine a requested evolution of `n` steps always
completes in full, appending exactly `n` rows (all-or-nothing behavior). -/
theorem negative_steps_fail_without_mutation :
    (∀ (e : ECA) (q : ℚ), q < 0 →
      e.evolve q = (e, some "time_steps must be a non-negative integer")) ∧
    (∀ (r : Int) (ic : List Int), 0 ≤ r → r ≤ 19682 →
      validCells ic = true →
      ∀ (n : Nat) (e : ECA), ECA.init r ic = .ok e →
        (e.evolve ((n : ℚ))).2 = none ∧
        (e.evolve ((n : ℚ))).1.spacetime.length = e.spacetime.length + n) := by
  constructor
  · exact evolve_neg
  · intro r ic h0 h1 hic n e hinit
    obtain ⟨hinit', hok⟩ := init_ok r ic h0 h1 hic
    rw [hinit] at hinit'
    injection hinit' with he
    subst he
    rw [evolve_natCast]
    obtain ⟨e', he', _, _, _, _, hlen, _, _⟩ := evolveSteps_spec n _ hok
    rw [he']
    exact ⟨rfl, hlen⟩

/-- Witness for C7: `evolve(-1)` on the concrete engine, and a completed
1-step run on the same engine. -/
theorem negative_steps_fail_without_mutation_witness :
    engine22.evolve (-1) =
      (engine22, some "time_steps must be a non-negative integer") ∧
    ((engine22.evolve (((1 : Nat)) : ℚ)).2 = none ∧
      (engine22.evolve (((1 : Nat)) : ℚ)).1.spacetime.length =
        engine22.spacetime.length + 1) :=
  ⟨negative_steps_fail_without_mutation.1 engine22 (-1) (by norm_num),
    negative_steps_fail_without_mutation.2 22 [0,0,2,0,1,0] (by decide)
      (by decide) (by decide) 1 engine22 (by decide)⟩

/-- C8: building the rule table of a valid rule number succeeds and yields
a table whose keys are exactly the 9 canonical neighborhoods, each once
(the key list is the duplicate-free `neighborhoods`); the construction is
a function of the rule number alone, so equal rule numbers give identical
tables; distinct valid rule numbers give distinct tables; and every
possible assignment of the three cell values to the nine neighborhoods is
hit — the map from `[0, 19682]` to the `3^9` tables is a bijection. -/
theorem rule_table_bijection :
    neighborhoods.Nodup ∧
    (∀ r : Int, 0 ≤ r → r ≤ 19682 →
      lookup_table r = .ok (tableOfNat r.toNat)) ∧
    (∀ n : Nat, n ≤ 19682 → (tableOfNat n).map Prod.fst = neighborhoods) ∧
    (∀ n m : Nat, n ≤ 19682 → m ≤ 19682 →
      tableOfNat n = tableOfNat m → n = m) ∧
    (∀ ds : List Nat, ds.length = 9 → (∀ x ∈ ds, x < 3) →
      ∃ n : Nat, n ≤ 19682 ∧
        tableOfNat n = neighborhoods.zip (ds.map (fun d => (d : Int)))) := by
  refine ⟨by decide, lookup_table_ok, ?_, tableOfNat_inj, tableOfNat_surj⟩
  intro n hn
  rw [tableOfNat_explicit n (by omega)]
  rfl

/-- Witness for C8: the key list of rule 22's table, injectivity at the
pair (22, 22), and surjectivity at the all-ones digit string. -/
theorem rule_table_bijection_witness :
    (tableOfNat 22).map Prod.fst = neighborhoods ∧
    (tableOfNat 22 = tableOfNat 22 → (22 : Nat) = 22) ∧
    (∃ n : Nat, n ≤ 19682 ∧
      tableOfNat n =
        neighborhoods.zip (([1,1,1,1,1,1,1,1,1] : List Nat).map
          (fun d => (d : Int)))) :=
  ⟨(rule_table_bijection.2.2.1) 22 (by decide),
    (rule_table_bijection.2.2.2.1) 22 22 (by decide) (by decide),
    (rule_table_bijection.2.2.2.2) [1,1,1,1,1,1,1,1,1] (by decide)
      (by decide)⟩

/-- C9: for every valid rule number, valid non-empty initial condition and
non-negative step count, every configuration in the resulting spacetime
field has the same length as the initial condition. -/
theorem length_invariance (r : Int) (ic : List Int) (t : Nat)
    (h0 : 0 ≤ r) (h1 : r ≤ 19682) (hic : validCells ic = true)
    (hne : ic ≠ []) :
    ∃ f, spacetime_field r ic ((t : ℚ)) = .ok f ∧
      ∀ row ∈ f, row.length = ic.length := by
  obtain ⟨_, hok⟩ := init_ok r ic h0 h1 hic
  obtain ⟨e', he', _, _, _, _, _, _, hrows⟩ := evolveSteps_spec t _ hok
  have hloop := evolveSteps_loop t _ e' he'
  refine ⟨e'.spacetime, ?_, ?_⟩
  · rw [spacetime_field_natCast, spacetime_core_ok r ic h0 h1 hic t]
    exact hloop
  · intro row hr
    rcases hrows row hr with hold | ⟨_, hlen⟩
    · simp only [List.mem_singleton] at hold
      rw [hold]
    · exact hlen

/-- Witness for C9 at rule 22, `[0,0,2,0,1,0]`, 2 steps. -/
theorem length_invariance_witness :
    ∃ f, spacetime_field 22 [0,0,2,0,1,0] (((2 : Nat)) : ℚ) = .ok f ∧
      ∀ row ∈ f, row.length = ([0,0,2,0,1,0] : List Int).length :=
  length_invariance 22 [0,0,2,0,1,0] 2 (by decide) (by decide) (by decide)
    (by decide)

/-- C10: the standalone `spacetime_field` function and the `ECA` class
agree — for every valid rule number, valid initial condition and
non-negative integer step count, the `spacetime` attribute of the engine
after `evolve(steps)` is exactly the value `spacetime_field` returns. -/
theorem class_matches_function (r : Int) (ic : List Int) (t : Nat)
    (h0 : 0 ≤ r) (h1 : r ≤ 19682) (hic : validCells ic = true) :
    ∃ e, ECA.init r ic = .ok e ∧ (e.evolve ((t : ℚ))).2 = none ∧
      spacetime_field r ic ((t : ℚ)) =
        .ok ((e.evolve ((t : ℚ))).1.spacetime) := by
  obtain ⟨hinit, hok⟩ := init_ok r ic h0 h1 hic
  obtain ⟨e', he', _, _, _, _, _, _, _⟩ := evolveSteps_spec t _ hok
  have hloop := evolveSteps_loop t _ e' he'
  refine ⟨_, hinit, ?_, ?_⟩
  · rw [evolve_natCast, he']
  · rw [evolve_natCast, he', spacetime_field_natCast,
      spacetime_core_ok r ic h0 h1 hic t]
    exact hloop

/-- Witness for C10 at rule 22, `[0,0,2,0,1,0]`, 2 steps. -/
theorem class_matches_function_witness :
    ∃ e, ECA.init 22 [0,0,2,0,1,0] = .ok e ∧
      (e.evolve (((2 : Nat)) : ℚ)).2 = none ∧
      spacetime_field 22 [0,0,2,0,1,0] (((2 : Nat)) : ℚ) =
        .ok ((e.evolve (((2 : Nat)) : ℚ)).1.spacetime) :=
  class_matches_function 22 [0,0,2,0,1,0] 2 (by decide) (by decide)
    (by decide)

end ThreeStateCA
